import Mathlib

/-!
Verification of the session-lifecycle / file-synchronization core of the
lean-lsp-mcp repository. Each definition below is a shallow embedding of a
function from the Python source (src/lean_lsp_mcp); theorems at the end of
the file settle the frozen specification claims against these embeddings.

Conventions of the embedding:
* Python str is Lean String; Python splitlines (on newline characters) is
  the function splitlines below, matching Python's behaviour of dropping a
  trailing empty segment and producing the empty list for the empty string.
* Python int is Lean Int (timestamps, line numbers); Python dict is an
  association list with in-place replacement on assignment (dictInsert).
* A Python expression that can raise an uncaught exception is modelled with
  Except: the .error case is an uncaught exception (IndexError, ValueError,
  failed client start). A caught exception is a matched-and-discarded
  Except value at the catch site.
* POSIX absolute/relative paths are modelled as PPath: an absoluteness flag
  plus the list of path components. os.path.dirname, os.path.join,
  os.path.relpath are dirname, pjoin, relpath below (relpath assumes
  normalized inputs, as the callers provide).
* The filesystem and the external world (disk reads, the language-server
  process, the build) are parameters: FS for os.path.exists / os.path.isfile,
  Bool flags for whether a client start with or without an initial build
  succeeds, a String parameter for the content a disk read returns.
-/

/-- Python str.splitlines restricted to newline separators: helper running
over the character list with an accumulator for the current line. -/
def splitlinesAux : List Char → List Char → List String
  | [], [] => []
  | [], acc => [String.mk acc.reverse]
  | c :: rest, acc =>
    if c = '\n' then String.mk acc.reverse :: splitlinesAux rest []
    else splitlinesAux rest (c :: acc)

/-- Python content.splitlines() for newline-separated content: no trailing
empty line for content ending in a newline, empty list for empty content. -/
def splitlines (s : String) : List String :=
  splitlinesAux s.data []

/-- Python s[:n] for a nonnegative index n (clamped at the length). -/
def strTake (s : String) (n : Nat) : String :=
  String.mk (s.data.take n)

/-- Python s[n:] for a nonnegative index n (clamped at the length). -/
def strDrop (s : String) (n : Nat) : String :=
  String.mk (s.data.drop n)

/-- Python s[a:b] for nonnegative indices (clamped, empty when a >= b). -/
def strSlice (s : String) (a b : Nat) : String :=
  String.mk ((s.data.take b).drop a)

/-- Python list slicing l[a:b] with possibly negative Python indices:
a negative index counts from the end, bounds are clamped. -/
def pySliceList {α : Type} (l : List α) (a b : Int) : List α :=
  let n : Int := l.length
  let a' : Nat := if a < 0 then (n + a).toNat else min a.toNat l.length
  let b' : Nat := if b < 0 then (n + b).toNat else min b.toNat l.length
  (l.take b').drop a'

/-- The in-place update selected_lines[-1] = selected_lines[-1][:end_char]
from extract_range: truncate the last string of the list to end_char. -/
def truncLast : List String → Nat → List String
  | [], _ => []
  | [x], endChar => [strTake x endChar]
  | x :: y :: xs, endChar => x :: truncLast (y :: xs) endChar

/-- An LSP position: the dictionaries with keys line and character used by
utils.extract_range. Lines are Python ints, characters are the nonnegative
character offsets the protocol delivers. -/
structure Pos where
  line : Int
  character : Nat
  deriving DecidableEq

/-- An LSP range dictionary with keys start and end. -/
structure Range where
  start : Pos
  end_ : Pos
  deriving DecidableEq

/-- Embedding of utils.extract_range. The .error case is an uncaught Python
IndexError (possible when the slice selected_lines is empty); every normal
return, including the "Range out of bounds" string, is .ok. -/
def extract_range (content : String) (r : Range) : Except Unit String :=
  let lines := splitlines content
  let start_line := r.start.line
  let start_char := r.start.character
  let end_line := r.end_.line
  let end_char := r.end_.character
  if start_line < 0 ∨ (lines.length : Int) ≤ end_line then
    .ok "Range out of bounds"
  else if start_line = end_line then
    match lines.get? start_line.toNat with
    | none => .error ()
    | some line => .ok (strSlice line start_char end_char)
  else
    match pySliceList lines start_line (end_line + 1) with
    | [] => .error ()
    | first :: rest =>
      .ok (String.intercalate "\n" (truncLast (strDrop first start_char :: rest) end_char))

/-- Embedding of utils.format_line. line_number and column are the 1-indexed
Python ints the tool receives; the .error case is an uncaught IndexError
from the subscript lines[line_number]. The source checks, verbatim:
line_number < 1 or line_number > len(lines) after the decrement, and
column < 0 or column >= len(lines) after the decrement. -/
def format_line (file_content : String) (line_number : Int) (column : Option Int)
    (cursor_tag : String) : Except Unit String :=
  let lines := splitlines file_content
  let ln := line_number - 1
  if ln < 1 ∨ (lines.length : Int) < ln then
    .ok "Line number out of range"
  else
    match lines.get? ln.toNat with
    | none => .error ()
    | some line =>
      match column with
      | none => .ok line
      | some col =>
        let c := col - 1
        if c < 0 ∨ (lines.length : Int) ≤ c then
          .ok "Invalid column number"
        else
          .ok (strTake line c.toNat ++ cursor_tag ++ strDrop line c.toNat)

/-- Embedding of the body of the wrapper produced by server.rate_limited for
one category: given the category's current timestamp list and the current
time, it prunes to timestamps strictly newer than current_time - per_seconds,
rejects without recording when the pruned count has reached max_requests,
and otherwise records current_time and admits. Returns (admitted?, the list
stored back into rate_limit[category]). -/
def rate_limited (max_requests : Nat) (per_seconds : Int) (timestamps : List Int)
    (current_time : Int) : Bool × List Int :=
  let pruned := timestamps.filter (fun t => decide (current_time - per_seconds < t))
  if max_requests ≤ pruned.length then
    (false, pruned)
  else
    (true, pruned ++ [current_time])

/-- A normalized POSIX path: whether it is absolute, plus its components.
The root "/" is (true, []); the empty string is (false, []). -/
structure PPath where
  isAbs : Bool
  comps : List String
  deriving DecidableEq

/-- os.path.dirname on a normalized POSIX path: drops the last component;
dirname of the root "/" is "/" again, dirname of a single relative
component is the empty string. -/
def dirname (p : PPath) : PPath :=
  ⟨p.isAbs, p.comps.dropLast⟩

/-- Python truthiness of the string form of a path: only the empty string
(a relative path with no components) is falsy; "/" is truthy. -/
def pyTruthy (p : PPath) : Bool :=
  p.isAbs || !p.comps.isEmpty

/-- os.path.join for normalized paths: an absolute second argument replaces
the first, a relative one is appended. -/
def pjoin (a b : PPath) : PPath :=
  if b.isAbs then b else ⟨a.isAbs, a.comps ++ b.comps⟩

/-- Length of the longest common prefix of two component lists, as used by
os.path.relpath. -/
def commonPrefixLen : List String → List String → Nat
  | a :: as_, b :: bs => if a = b then commonPrefixLen as_ bs + 1 else 0
  | _, _ => 0

/-- os.path.relpath(path, start) for normalized absolute paths: climb out of
the components of start that are not shared, then descend into path; the
empty result is the current directory ".". -/
def relpath (path start : PPath) : PPath :=
  let cp := commonPrefixLen path.comps start.comps
  let ups := start.comps.length - cp
  let comps := List.replicate ups ".." ++ path.comps.drop cp
  if comps = [] then ⟨false, ["."]⟩ else ⟨false, comps⟩

/-- The filesystem as seen by the resolver: os.path.exists and
os.path.isfile as opaque predicates over paths. -/
structure FS where
  pathExists : PPath → Bool
  isFile : PPath → Bool

/-- Embedding of client_utils.valid_lean_project_path: the path exists and
the file lean-toolchain exists directly inside it. -/
def valid_lean_project_path (fs : FS) (path : PPath) : Bool :=
  if fs.pathExists path = false then false
  else fs.isFile (pjoin path ⟨false, ["lean-toolchain"]⟩)

/-- The leanclient.LeanLSPClient object as the state machine sees it: the
project path it was started for and whether its start ran an initial build. -/
structure LeanLSPClient where
  project_path : PPath
  initial_build : Bool
  deriving DecidableEq

/-- Embedding of server.AppContext, the lifespan context: the bound project
root, the live client, and the file-content fingerprint cache (a Python
dict, modelled as an association list keyed by project-relative path). The
per-category rate-limit lists are handled separately by rate_limited. -/
structure AppContext where
  lean_project_path : Option PPath
  client : Option LeanLSPClient
  file_content_hashes : List (PPath × Int)
  deriving DecidableEq

/-- Uncaught Python exceptions the session layer can raise. -/
inductive PyErr where
  | valueError
  | clientError
  deriving DecidableEq

/-- Embedding of client_utils.startup_client. buildOk says whether
LeanLSPClient(root, initial_build=True) succeeds; fallbackOk whether the
retry with initial_build=False succeeds. Returns the context after the call
together with the uncaught exception, if any: ValueError when no project
path is set, clientError when both start attempts fail (in which case the
old client field is untouched but the fingerprint cache was already
cleared, exactly as in the source, where the clear precedes construction). -/
def startup_client (buildOk fallbackOk : Bool) (ctx : AppContext) :
    AppContext × Option PyErr :=
  match ctx.lean_project_path with
  | none => (ctx, some .valueError)
  | some lean_project_path =>
    let start := fun (ctx1 : AppContext) =>
      if buildOk then
        ({ ctx1 with client := some ⟨lean_project_path, true⟩ }, (none : Option PyErr))
      else if fallbackOk then
        ({ ctx1 with client := some ⟨lean_project_path, false⟩ }, none)
      else
        (ctx1, some .clientError)
    match ctx.client with
    | some client =>
      if client.project_path = lean_project_path then (ctx, none)
      else start { ctx with file_content_hashes := [] }
    | none => start ctx

/-- Embedding of file_utils.get_relative_file_path: try the file path as an
existing path on disk, then relative to the project path, then relative to
the current working directory; the first attempt that exists is expressed
relative to the project path. -/
def get_relative_file_path (fs : FS) (cwd : PPath) (lean_project_path : PPath)
    (file_path : PPath) : Option PPath :=
  if fs.pathExists file_path then
    some (relpath file_path lean_project_path)
  else
    let path := pjoin lean_project_path file_path
    if fs.pathExists path then
      some (relpath path lean_project_path)
    else
      let path2 := pjoin cwd file_path
      if fs.pathExists path2 then
        some (relpath path2 lean_project_path)
      else
        none

/-- Embedding of the while loop of client_utils.setup_client_for_file: walk
file_dir upward with dirname while its string form is truthy, looking for a
valid Lean project directory owning file_path. The loop is given fuel; the
outer none means the fuel ran out, i.e. the loop has not terminated within
that many iterations. A terminating iteration yields the returned relative
path (none when the loop fell through), the resulting context, and the
uncaught exception of startup_client, if any. -/
def setup_loop (fs : FS) (cwd : PPath) (buildOk fallbackOk : Bool) (file_path : PPath) :
    Nat → PPath → AppContext → Option (Option PPath × AppContext × Option PyErr)
  | 0, _, _ => none
  | fuel + 1, file_dir, ctx =>
    if pyTruthy file_dir then
      if valid_lean_project_path fs file_dir then
        match get_relative_file_path fs cwd file_dir file_path with
        | some rel_path =>
          let ctx1 := { ctx with lean_project_path := some file_dir }
          let res := startup_client buildOk fallbackOk ctx1
          some (match res.2 with
            | none => (some rel_path, res.1, none)
            | some e => (none, res.1, some e))
        | none => setup_loop fs cwd buildOk fallbackOk file_path fuel (dirname file_dir) ctx
      else setup_loop fs cwd buildOk fallbackOk file_path fuel (dirname file_dir) ctx
    else
      some (none, ctx, none)

/-- Embedding of client_utils.setup_client_for_file: if a project path is
bound and the file resolves against it, start up (or keep) the client and
return the relative path; otherwise search the ancestors of file_path for a
project root with setup_loop. The outer none again means the upward search
did not terminate within the given fuel. -/
def setup_client_for_file (fs : FS) (cwd : PPath) (buildOk fallbackOk : Bool)
    (fuel : Nat) (ctx : AppContext) (file_path : PPath) :
    Option (Option PPath × AppContext × Option PyErr) :=
  let afterBound :=
    match ctx.lean_project_path with
    | some lean_project_path =>
      match get_relative_file_path fs cwd lean_project_path file_path with
      | some rel_path =>
        let res := startup_client buildOk fallbackOk ctx
        some (match res.2 with
          | none => (some rel_path, res.1, (none : Option PyErr))
          | some e => (none, res.1, some e))
      | none => none
    | none => none
  match afterBound with
  | some r => some r
  | none => setup_loop fs cwd buildOk fallbackOk file_path fuel (dirname file_path) ctx

/-- Lookup in the association-list model of a Python dict. -/
def dictLookup : List (PPath × Int) → PPath → Option Int
  | [], _ => none
  | (k, v) :: rest, key => if k = key then some v else dictLookup rest key

/-- Assignment d[key] = value in the association-list model of a Python
dict: replace in place, or append a fresh binding. -/
def dictInsert : List (PPath × Int) → PPath → Int → List (PPath × Int)
  | [], key, value => [(key, value)]
  | (k, v) :: rest, key, value =>
    if k = key then (key, value) :: rest else (k, v) :: dictInsert rest key value

/-- The client.close_files([rel_path]) call inside file_utils.update_file:
ok says whether the language-server call succeeds; .error is the raised
exception that update_file catches. -/
def close_files (ok : Bool) (_paths : List PPath) : Except Unit Unit :=
  if ok then .ok () else .error ()

/-- Embedding of file_utils.update_file. hashFn is Python's hash on the
file content; file_content is what get_file_contents read from disk for
rel_path; invalidateOk says whether the close_files call would succeed.
Returns the content given back to the caller, the context after the call,
and the list of close_files invocations made (each with its path list). The
try/except around close_files is the match whose two branches return the
same value: the raised exception is swallowed. -/
def update_file (hashFn : String → Int) (invalidateOk : Bool) (ctx : AppContext)
    (rel_path : PPath) (file_content : String) :
    String × AppContext × List (List PPath) :=
  let hashed_file := hashFn file_content
  match dictLookup ctx.file_content_hashes rel_path with
  | none =>
    (file_content,
     { ctx with file_content_hashes := dictInsert ctx.file_content_hashes rel_path hashed_file },
     [])
  | some cached =>
    if hashed_file = cached then
      (file_content, ctx, [])
    else
      let ctx1 :=
        { ctx with file_content_hashes := dictInsert ctx.file_content_hashes rel_path hashed_file }
      match close_files invalidateOk [rel_path] with
      | .ok _ => (file_content, ctx1, [[rel_path]])
      | .error _ => (file_content, ctx1, [[rel_path]])

/-- Embedding of server.lsp_build after the project path has been settled:
build is the outcome of constructing LeanLSPClient(root, initial_build=True)
inside the OutputCapture block, carrying the build log on success and, on
failure, the exception text together with the output the capture had
collected before the failure. The local build_output starts empty and, as
in the source, is only assigned from the capture after a successful build,
so the except branch formats the empty string. -/
def lsp_build (root : PPath) (ctx : AppContext) (build : Except (String × String) String) :
    String × AppContext :=
  let build_output := ""
  let ctx1 :=
    match ctx.client with
    | some _ => { ctx with client := none, file_content_hashes := [] }
    | none => ctx
  match build with
  | .ok captured => (captured, { ctx1 with client := some ⟨root, true⟩ })
  | .error e => ("Error during build:\n" ++ e.1 ++ "\n" ++ build_output, ctx1)

/-- Looking up the key just assigned in the dict model yields the assigned
value. -/
theorem dictLookup_dictInsert_self (l : List (PPath × Int)) (k : PPath) (v : Int) :
    dictLookup (dictInsert l k v) k = some v := by
  induction l with
  | nil => simp [dictInsert, dictLookup]
  | cons hd tl ih =>
    obtain ⟨k', v'⟩ := hd
    by_cases h : k' = k
    · simp [dictInsert, dictLookup, h]
    · simp [dictInsert, dictLookup, h, ih]

/-- C1: For a category with maxRequests 3 and windowSeconds 30, the wrapper
prunes to timestamps strictly newer than now - 30; it rejects without
recording now exactly when the pruned count has reached 3, and otherwise
records now and accepts. From a burst of four calls at one timestamp t on a
fresh category, the first three are accepted and the fourth rejected, and a
further call at a time at least 31 seconds later is accepted. -/
theorem rate_limited_sliding_window (ts : List Int) (now t t' : Int)
    (h : t + 31 ≤ t') :
    (((rate_limited 3 30 ts now).1 = false ↔
        3 ≤ (ts.filter (fun x => decide (now - 30 < x))).length) ∧
     ((rate_limited 3 30 ts now).1 = false →
        (rate_limited 3 30 ts now).2 = ts.filter (fun x => decide (now - 30 < x))) ∧
     ((rate_limited 3 30 ts now).1 = true →
        (rate_limited 3 30 ts now).2 =
          ts.filter (fun x => decide (now - 30 < x)) ++ [now])) ∧
    (rate_limited 3 30 [] t = (true, [t]) ∧
     rate_limited 3 30 [t] t = (true, [t, t]) ∧
     rate_limited 3 30 [t, t] t = (true, [t, t, t]) ∧
     rate_limited 3 30 [t, t, t] t = (false, [t, t, t]) ∧
     (rate_limited 3 30 [t, t, t] t').1 = true) := by
  have hd : (decide (t - 30 < t)) = true := decide_eq_true (by omega)
  have hd' : (decide (t' - 30 < t)) = false := decide_eq_false (by omega)
  refine ⟨⟨?_, ?_, ?_⟩, ?_, ?_, ?_, ?_, ?_⟩
  · by_cases hc : 3 ≤ (ts.filter (fun x => decide (now - 30 < x))).length <;>
      simp [rate_limited, hc]
  · by_cases hc : 3 ≤ (ts.filter (fun x => decide (now - 30 < x))).length <;>
      simp [rate_limited, hc]
  · by_cases hc : 3 ≤ (ts.filter (fun x => decide (now - 30 < x))).length <;>
      simp [rate_limited, hc]
  · simp [rate_limited]
  · simp [rate_limited, hd]
  · simp [rate_limited, hd]
  · simp [rate_limited, hd]
  · simp [rate_limited, hd']

/-- Witness for C1 at a concrete burst: the timestamps recorded at time 0
fill the window, and the call at time 31 is admitted again. -/
theorem rate_limited_sliding_window_witness :
    (0 : Int) + 31 ≤ 31 ∧ (rate_limited 3 30 [0, 0, 0] 31).1 = true :=
  ⟨by decide, (rate_limited_sliding_window [] 0 0 31 (by decide)).2.2.2.2.2⟩

/-- C4: syncing an unmodified file twice returns the same content both
times, performs no invalidation on the second call, and leaves the context
(in particular the fingerprint entry for the path) unchanged. -/
theorem update_file_idempotent (hashFn : String → Int) (invalidateOk : Bool)
    (ctx : AppContext) (rel_path : PPath) (file_content : String) :
    (update_file hashFn invalidateOk
        (update_file hashFn invalidateOk ctx rel_path file_content).2.1
        rel_path file_content).1 =
      (update_file hashFn invalidateOk ctx rel_path file_content).1 ∧
    (update_file hashFn invalidateOk
        (update_file hashFn invalidateOk ctx rel_path file_content).2.1
        rel_path file_content).2.2 = [] ∧
    (update_file hashFn invalidateOk
        (update_file hashFn invalidateOk ctx rel_path file_content).2.1
        rel_path file_content).2.1 =
      (update_file hashFn invalidateOk ctx rel_path file_content).2.1 := by
  have key : ∀ ctx1 : AppContext,
      dictLookup ctx1.file_content_hashes rel_path = some (hashFn file_content) →
      update_file hashFn invalidateOk ctx1 rel_path file_content =
        (file_content, ctx1, []) := by
    intro ctx1 h1
    simp [update_file, h1]
  have hfirst : dictLookup
      (update_file hashFn invalidateOk ctx rel_path file_content).2.1.file_content_hashes
      rel_path = some (hashFn file_content) := by
    rcases hl : dictLookup ctx.file_content_hashes rel_path with _ | cached
    · simp [update_file, hl, dictLookup_dictInsert_self]
    · by_cases he : hashFn file_content = cached
      · simp [update_file, hl, he]
      · cases invalidateOk <;>
          simp [update_file, hl, he, close_files, dictLookup_dictInsert_self]
  rw [key _ hfirst]
  refine ⟨?_, rfl, rfl⟩
  rcases hl : dictLookup ctx.file_content_hashes rel_path with _ | cached
  · simp [update_file, hl]
  · by_cases he : hashFn file_content = cached
    · simp [update_file, hl, he]
    · cases invalidateOk <;> simp [update_file, hl, he, close_files]

/-- C5: when the cached fingerprint differs from the fingerprint of the
current on-disk content, sync stores the new fingerprint, performs exactly
one close_files invalidation for that path, and returns the new content. -/
theorem update_file_change_detection (hashFn : String → Int) (invalidateOk : Bool)
    (ctx : AppContext) (rel_path : PPath) (file_content : String) (cached : Int)
    (h1 : dictLookup ctx.file_content_hashes rel_path = some cached)
    (h2 : hashFn file_content ≠ cached) :
    update_file hashFn invalidateOk ctx rel_path file_content =
      (file_content,
       { ctx with file_content_hashes :=
           dictInsert ctx.file_content_hashes rel_path (hashFn file_content) },
       [[rel_path]]) := by
  cases invalidateOk <;> simp [update_file, h1, h2, close_files]

/-- Witness for C5: a cached entry with fingerprint 0 drifting to
fingerprint 1 triggers one invalidation and stores the new fingerprint. -/
theorem update_file_change_detection_witness :
    update_file (fun _ => 1) true
        ⟨some ⟨true, ["A"]⟩, none, [(⟨false, ["f"]⟩, 0)]⟩ ⟨false, ["f"]⟩ "new" =
      ("new", ⟨some ⟨true, ["A"]⟩, none, [(⟨false, ["f"]⟩, 1)]⟩,
       [[⟨false, ["f"]⟩]]) :=
  update_file_change_detection (fun _ => 1) true
    ⟨some ⟨true, ["A"]⟩, none, [(⟨false, ["f"]⟩, 0)]⟩ ⟨false, ["f"]⟩ "new" 0
    (by decide) (by decide)

/-- C9: when the invalidation call raises (invalidateOk = false), the
exception is swallowed: sync still returns normally with the fresh on-disk
content, and the cache holds the new fingerprint for the path. -/
theorem update_file_invalidation_failure_swallowed (hashFn : String → Int)
    (ctx : AppContext) (rel_path : PPath) (file_content : String) (cached : Int)
    (h1 : dictLookup ctx.file_content_hashes rel_path = some cached)
    (h2 : hashFn file_content ≠ cached) :
    (update_file hashFn false ctx rel_path file_content).1 = file_content ∧
    dictLookup
      (update_file hashFn false ctx rel_path file_content).2.1.file_content_hashes
      rel_path = some (hashFn file_content) := by
  simp [update_file, h1, h2, close_files, dictLookup_dictInsert_self]

/-- Witness for C9: drift with a failing invalidation still yields the new
content and the new fingerprint. -/
theorem update_file_invalidation_failure_swallowed_witness :
    (update_file (fun _ => 7) false
        ⟨none, none, [(⟨false, ["g"]⟩, 2)]⟩ ⟨false, ["g"]⟩ "fresh").1 = "fresh" ∧
    dictLookup
      (update_file (fun _ => 7) false
        ⟨none, none, [(⟨false, ["g"]⟩, 2)]⟩ ⟨false, ["g"]⟩ "fresh").2.1.file_content_hashes
      ⟨false, ["g"]⟩ = some 7 :=
  update_file_invalidation_failure_swallowed (fun _ => 7)
    ⟨none, none, [(⟨false, ["g"]⟩, 2)]⟩ ⟨false, ["g"]⟩ "fresh" 2
    (by decide) (by decide)

/-- C3: startup_client is a no-op (context returned unchanged, no error)
when the live client already targets the bound project path; when the live
client targets a different path, the fingerprint cache of the resulting
context is empty, so no entry recorded under the previous root survives the
rebind. -/
theorem startup_client_ensure_bound (buildOk fallbackOk : Bool) (ctx : AppContext)
    (client : LeanLSPClient) (root : PPath)
    (hroot : ctx.lean_project_path = some root)
    (hclient : ctx.client = some client) :
    (client.project_path = root →
      startup_client buildOk fallbackOk ctx = (ctx, none)) ∧
    (client.project_path ≠ root →
      (startup_client buildOk fallbackOk ctx).1.file_content_hashes = []) := by
  constructor
  · intro he
    simp [startup_client, hroot, hclient, he]
  · intro hne
    cases buildOk <;> cases fallbackOk <;>
      simp [startup_client, hroot, hclient, hne]

/-- Witness for C3: a client bound to root A is left untouched when A is
requested again, and rebinding from A to B empties a nonempty cache. -/
theorem startup_client_ensure_bound_witness :
    startup_client true true
        ⟨some ⟨true, ["A"]⟩, some ⟨⟨true, ["A"]⟩, true⟩, [(⟨false, ["x"]⟩, 5)]⟩ =
      (⟨some ⟨true, ["A"]⟩, some ⟨⟨true, ["A"]⟩, true⟩, [(⟨false, ["x"]⟩, 5)]⟩, none) ∧
    (startup_client true true
        ⟨some ⟨true, ["B"]⟩, some ⟨⟨true, ["A"]⟩, true⟩,
         [(⟨false, ["x"]⟩, 5)]⟩).1.file_content_hashes = [] :=
  ⟨(startup_client_ensure_bound true true
      ⟨some ⟨true, ["A"]⟩, some ⟨⟨true, ["A"]⟩, true⟩, [(⟨false, ["x"]⟩, 5)]⟩
      ⟨⟨true, ["A"]⟩, true⟩ ⟨true, ["A"]⟩ rfl rfl).1 rfl,
   (startup_client_ensure_bound true true
      ⟨some ⟨true, ["B"]⟩, some ⟨⟨true, ["A"]⟩, true⟩, [(⟨false, ["x"]⟩, 5)]⟩
      ⟨⟨true, ["A"]⟩, true⟩ ⟨true, ["B"]⟩ rfl rfl).2 (by decide)⟩

/-- C6: when the build step throws after having emitted output, lsp_build
returns only the error text with an empty partial-output segment: the
output the capture collected before the failure (here "partial build log")
does not occur in the returned value, because the source only reads the
capture after a successful build. -/
theorem lsp_build_error_drops_partial_output :
    (lsp_build ⟨true, ["proj"]⟩ ⟨none, none, []⟩
        (.error ("boom", "partial build log"))).1 = "Error during build:\nboom\n" ∧
    ¬ ("partial build log".data <:+:
        (lsp_build ⟨true, ["proj"]⟩ ⟨none, none, []⟩
          (.error ("boom", "partial build log"))).1.data) := by
  constructor
  · rfl
  · decide

/-- C7: format_line mishandles its 1-indexed bounds: requesting line 1 of a
two-line file is wrongly reported out of range; requesting line 3 of a
two-line file passes the bounds check and raises an uncaught IndexError;
and a column beyond the target line's length is accepted whenever it is
within the file's line count (here column 4 on the two-character line
"ef" of a five-line file). -/
theorem format_line_off_by_one :
    format_line "a\nb" 1 none "<cursor>" = .ok "Line number out of range" ∧
    format_line "a\nb" 3 none "<cursor>" = .error () ∧
    format_line "ab\ncd\nef\ngh\nij" 3 (some 4) "<cursor>" = .ok "ef<cursor>" :=
  ⟨rfl, rfl, rfl⟩

/-- dirname keeps a path absolute. -/
theorem dirname_isAbs (p : PPath) : (dirname p).isAbs = p.isAbs := rfl

/-- The upward-search loop of setup_client_for_file exhausts any amount of
fuel when it starts at an absolute directory none of whose dirname iterates
is a valid Lean project directory: on POSIX the dirname of the root "/" is
"/" again, so the loop condition never becomes false. -/
theorem setup_loop_no_marker (fs : FS) (cwd : PPath) (buildOk fallbackOk : Bool)
    (file_path : PPath) (ctx : AppContext) :
    ∀ (fuel : Nat) (start : PPath), start.isAbs = true →
      (∀ k, valid_lean_project_path fs (dirname^[k] start) = false) →
      setup_loop fs cwd buildOk fallbackOk file_path fuel start ctx = none := by
  intro fuel
  induction fuel with
  | zero => intro start _ _; rfl
  | succ n ih =>
    intro start habs hm
    have h0 : valid_lean_project_path fs start = false := by
      have := hm 0
      simpa using this
    have htruthy : pyTruthy start = true := by
      simp [pyTruthy, habs]
    have hrec : ∀ k, valid_lean_project_path fs (dirname^[k] (dirname start)) = false := by
      intro k
      have := hm (k + 1)
      rwa [Function.iterate_succ_apply] at this
    simp only [setup_loop, htruthy, h0, if_true, if_false]
    exact ih (dirname start) (by rw [dirname_isAbs]; exact habs) hrec

/-- C2 (as the code actually behaves): for an absolute file path none of
whose ancestor directories is a valid Lean project directory, and with no
project path bound, setup_client_for_file does not terminate: it returns
the fuel-exhaustion marker for every amount of fuel, because the dirname
walk gets stuck at the filesystem root "/", whose string form stays truthy. -/
theorem setup_client_for_file_no_marker_diverges (fs : FS) (cwd : PPath)
    (buildOk fallbackOk : Bool) (ctx : AppContext) (file_path : PPath)
    (habs : file_path.isAbs = true)
    (hctx : ctx.lean_project_path = none)
    (hmarker : ∀ k, valid_lean_project_path fs (dirname^[k] (dirname file_path)) = false) :
    ∀ fuel, setup_client_for_file fs cwd buildOk fallbackOk fuel ctx file_path = none := by
  intro fuel
  simp only [setup_client_for_file, hctx]
  exact setup_loop_no_marker fs cwd buildOk fallbackOk file_path ctx fuel
    (dirname file_path) (by rw [dirname_isAbs]; exact habs) hmarker

/-- Witness for C2: on an empty filesystem the resolution of an absolute
path exhausts a concrete fuel budget instead of terminating with none. -/
theorem setup_client_for_file_no_marker_diverges_witness :
    setup_client_for_file ⟨fun _ => false, fun _ => false⟩ ⟨true, []⟩ true true 9
      ⟨none, none, []⟩ ⟨true, ["home", "u", "f.lean"]⟩ = none :=
  setup_client_for_file_no_marker_diverges ⟨fun _ => false, fun _ => false⟩ ⟨true, []⟩
    true true ⟨none, none, []⟩ ⟨true, ["home", "u", "f.lean"]⟩ rfl rfl
    (fun _ => rfl) 9

/-- The common prefix of two component lists is no longer than the second. -/
theorem commonPrefixLen_le_right (a b : List String) :
    commonPrefixLen a b ≤ b.length := by
  induction a generalizing b with
  | nil => cases b <;> simp [commonPrefixLen]
  | cons x xs ih =>
    cases b with
    | nil => simp [commonPrefixLen]
    | cons y ys =>
      by_cases h : x = y
      · simpa [commonPrefixLen, h] using ih ys
      · simp [commonPrefixLen, h]

/-- When the common prefix exhausts the second list, the second list is a
prefix of the first. -/
theorem prefix_of_commonPrefixLen_eq (a b : List String)
    (h : commonPrefixLen a b = b.length) : b <+: a := by
  induction a generalizing b with
  | nil =>
    cases b with
    | nil => exact List.nil_prefix
    | cons y ys => simp [commonPrefixLen] at h
  | cons x xs ih =>
    cases b with
    | nil => exact List.nil_prefix
    | cons y ys =>
      by_cases hxy : x = y
      · subst hxy
        have h' : commonPrefixLen xs ys = ys.length := by
          simp [commonPrefixLen] at h
          omega
        exact (List.prefix_cons_inj x).mpr (ih ys h')
      · simp [commonPrefixLen, hxy] at h

/-- relpath from a start that does not own the path climbs: its result
contains a parent-directory component. -/
theorem relpath_mem_dotdot (path start : PPath)
    (h : ¬ start.comps <+: path.comps) :
    ".." ∈ (relpath path start).comps := by
  have hle := commonPrefixLen_le_right path.comps start.comps
  have hlt : commonPrefixLen path.comps start.comps < start.comps.length := by
    rcases Nat.lt_or_ge (commonPrefixLen path.comps start.comps) start.comps.length with hl | hg
    · exact hl
    · exact absurd (prefix_of_commonPrefixLen_eq _ _ (Nat.le_antisymm hle hg)) h
  have hups : 1 ≤ start.comps.length - commonPrefixLen path.comps start.comps := by
    omega
  have hmem : ".." ∈
      List.replicate (start.comps.length - commonPrefixLen path.comps start.comps) ".."
        ++ path.comps.drop (commonPrefixLen path.comps start.comps) := by
    apply List.mem_append_left
    exact List.mem_replicate.mpr ⟨by omega, rfl⟩
  have hne : List.replicate (start.comps.length - commonPrefixLen path.comps start.comps) ".."
      ++ path.comps.drop (commonPrefixLen path.comps start.comps) ≠ [] := by
    intro hcontra
    rw [hcontra] at hmem
    exact List.not_mem_nil _ hmem
  simp only [relpath, if_neg hne]
  exact hmem

/-- C10: with a project root bound and the live client targeting it, an
existing absolute file outside the root still resolves against it:
get_relative_file_path yields the relpath against the bound root, that
relative path contains a parent-directory component, and
setup_client_for_file returns it with the context unchanged — no upward
search, no rebind, no clearing of the fingerprint cache. -/
theorem setup_client_for_file_outside_root (fs : FS) (cwd : PPath)
    (buildOk fallbackOk : Bool) (fuel : Nat) (ctx : AppContext) (root : PPath)
    (client : LeanLSPClient) (file_path : PPath)
    (hroot : ctx.lean_project_path = some root)
    (hclient : ctx.client = some client)
    (hsame : client.project_path = root)
    (hexists : fs.pathExists file_path = true)
    (houtside : ¬ root.comps <+: file_path.comps) :
    get_relative_file_path fs cwd root file_path = some (relpath file_path root) ∧
    ".." ∈ (relpath file_path root).comps ∧
    setup_client_for_file fs cwd buildOk fallbackOk fuel ctx file_path =
      some (some (relpath file_path root), ctx, none) := by
  have h1 : get_relative_file_path fs cwd root file_path =
      some (relpath file_path root) := by
    simp [get_relative_file_path, hexists]
  have h2 : startup_client buildOk fallbackOk ctx = (ctx, none) := by
    simp [startup_client, hroot, hclient, hsame]
  refine ⟨h1, relpath_mem_dotdot _ _ houtside, ?_⟩
  simp [setup_client_for_file, hroot, h1, h2]

/-- Witness for C10: a file /B/f.lean resolved while /A is bound yields the
relative path ../B/f.lean and leaves the context untouched. -/
theorem setup_client_for_file_outside_root_witness :
    get_relative_file_path
        ⟨fun p => decide (p = ⟨true, ["B", "f.lean"]⟩), fun _ => false⟩
        ⟨true, []⟩ ⟨true, ["A"]⟩ ⟨true, ["B", "f.lean"]⟩ =
      some (relpath ⟨true, ["B", "f.lean"]⟩ ⟨true, ["A"]⟩) ∧
    ".." ∈ (relpath ⟨true, ["B", "f.lean"]⟩ ⟨true, ["A"]⟩).comps ∧
    setup_client_for_file
        ⟨fun p => decide (p = ⟨true, ["B", "f.lean"]⟩), fun _ => false⟩
        ⟨true, []⟩ true true 4
        ⟨some ⟨true, ["A"]⟩, some ⟨⟨true, ["A"]⟩, true⟩, [(⟨false, ["x"]⟩, 5)]⟩
        ⟨true, ["B", "f.lean"]⟩ =
      some (some (relpath ⟨true, ["B", "f.lean"]⟩ ⟨true, ["A"]⟩),
        ⟨some ⟨true, ["A"]⟩, some ⟨⟨true, ["A"]⟩, true⟩, [(⟨false, ["x"]⟩, 5)]⟩, none) :=
  setup_client_for_file_outside_root
    ⟨fun p => decide (p = ⟨true, ["B", "f.lean"]⟩), fun _ => false⟩
    ⟨true, []⟩ true true 4
    ⟨some ⟨true, ["A"]⟩, some ⟨⟨true, ["A"]⟩, true⟩, [(⟨false, ["x"]⟩, 5)]⟩
    ⟨true, ["A"]⟩ ⟨⟨true, ["A"]⟩, true⟩ ⟨true, ["B", "f.lean"]⟩
    rfl rfl rfl (by decide) (by decide)

/-- Truncating the last element of a list that visibly ends in x truncates
exactly that x. -/
theorem truncLast_append (xs : List String) (x : String) (c : Nat) :
    truncLast (xs ++ [x]) c = xs ++ [strTake x c] := by
  induction xs with
  | nil => rfl
  | cons hd tl ih =>
    cases tl with
    | nil => rfl
    | cons a tl' =>
      simp only [List.cons_append, truncLast] at ih ⊢
      exact congrArg (List.cons hd) ih

/-- C8: extract_range returns the substring between the start and end
characters on a single-line range; on a multi-line range it returns the
text from the start character of the first line through the end character
of the last line, with the full lines in between, joined by newlines; on
the worked example it returns "bc\nde"; and it reports "Range out of
bounds" whenever the 0-indexed end line is not below the content's line
count. -/
theorem extract_range_spec :
    extract_range "abc\ndef" ⟨⟨0, 1⟩, ⟨1, 2⟩⟩ = .ok "bc\nde" ∧
    (∀ (content : String) (l a b : Nat) (line : String),
      (splitlines content).get? l = some line →
      extract_range content ⟨⟨(l : Int), a⟩, ⟨(l : Int), b⟩⟩ = .ok (strSlice line a b)) ∧
    (∀ (content : String) (l₁ l₂ a b : Nat) (first last : String),
      (splitlines content).get? l₁ = some first →
      (splitlines content).get? l₂ = some last →
      l₁ < l₂ →
      extract_range content ⟨⟨(l₁ : Int), a⟩, ⟨(l₂ : Int), b⟩⟩ =
        .ok (String.intercalate "\n"
          (strDrop first a ::
            (((splitlines content).take l₂).drop (l₁ + 1) ++ [strTake last b])))) ∧
    (∀ (content : String) (r : Range),
      ((splitlines content).length : Int) ≤ r.end_.line →
      extract_range content r = .ok "Range out of bounds") := by
  refine ⟨rfl, ?_, ?_, ?_⟩
  · intro content l a b line h
    have hb : l < (splitlines content).length := by
      have h' : (splitlines content)[l]? = some line := by
        rwa [List.get?_eq_getElem?] at h
      exact (List.getElem?_eq_some.mp h').1
    have hc1 : ¬ ((l : Int) < 0 ∨ ((splitlines content).length : Int) ≤ (l : Int)) := by
      omega
    simp only [extract_range, if_neg hc1, if_pos rfl, if_true, Int.toNat_natCast, h]
  · intro content l₁ l₂ a b first last h₁ h₂ hlt
    have h₁' : (splitlines content)[l₁]? = some first := by
      rwa [List.get?_eq_getElem?] at h₁
    have h₂' : (splitlines content)[l₂]? = some last := by
      rwa [List.get?_eq_getElem?] at h₂
    obtain ⟨hb₁, he₁⟩ := List.getElem?_eq_some.mp h₁'
    obtain ⟨hb₂, he₂⟩ := List.getElem?_eq_some.mp h₂'
    have hc1 : ¬ ((l₁ : Int) < 0 ∨ ((splitlines content).length : Int) ≤ (l₂ : Int)) := by
      omega
    have hc2 : ((l₁ : Int) ≠ (l₂ : Int)) := by
      exact_mod_cast Nat.ne_of_lt hlt
    have hsl : pySliceList (splitlines content) (l₁ : Int) ((l₂ : Int) + 1) =
        ((splitlines content).take (l₂ + 1)).drop l₁ := by
      have ht1 : ((l₁ : Int)).toNat = l₁ := Int.toNat_natCast l₁
      have ht2 : ((l₂ : Int) + 1).toNat = l₂ + 1 := by omega
      have hm1 : min ((l₁ : Int)).toNat (splitlines content).length = l₁ := by omega
      have hm2 : min ((l₂ : Int) + 1).toNat (splitlines content).length = l₂ + 1 := by
        omega
      simp only [pySliceList, if_neg (by omega : ¬ ((l₁ : Int) < 0)),
        if_neg (by omega : ¬ ((l₂ : Int) + 1 < 0)), hm1, hm2]
    have hdec : ((splitlines content).take (l₂ + 1)).drop l₁ =
        first :: (((splitlines content).take l₂).drop (l₁ + 1) ++ [last]) := by
      have hlen : ((splitlines content).take l₂).length = l₂ := by
        rw [List.length_take]
        omega
      have hone : l₁ < ((splitlines content).take l₂).length := by omega
      rw [List.take_succ, h₂', List.drop_append_eq_append_drop, hlen,
        List.drop_eq_getElem_cons hone]
      simp [List.getElem_take, he₁, Nat.sub_eq_zero_of_le (Nat.le_of_lt hlt)]
    simp only [extract_range, if_neg hc1, if_neg hc2, hsl, hdec]
    rw [show strDrop first a :: (((splitlines content).take l₂).drop (l₁ + 1) ++ [last]) =
        (strDrop first a :: ((splitlines content).take l₂).drop (l₁ + 1)) ++ [last] from rfl,
      truncLast_append]
    simp
  · intro content r h
    simp only [extract_range, if_pos (Or.inr h)]

/-- Witness for C8 on a three-line file: the range from character 1 of
line 0 through character 1 of line 2 extracts the tail of the first line,
the whole middle line and the head of the last line. -/
theorem extract_range_spec_witness :
    extract_range "ab\ncd\nef" ⟨⟨0, 1⟩, ⟨2, 1⟩⟩ =
      .ok (String.intercalate "\n"
        (strDrop "ab" 1 ::
          (((splitlines "ab\ncd\nef").take 2).drop 1 ++ [strTake "ef" 1]))) :=
  extract_range_spec.2.2.1 "ab\ncd\nef" 0 2 1 1 "ab" "ef" rfl rfl (by decide)
